import Mathlib

/-!
Verification of the crocoddyl prototype (DDP trajectory optimizer).

Shallow embedding of:
* `src/crocoddyl/state.py` — `StateVector` (flat vector state manifold);
* `src/crocoddyl/differential_action.py` — `DifferentialActionModel`
  (free forward dynamics differential action model);
* `src/cddp/ddp_formulation.py` — `ConstrainedDDP` (backward / forward DDP passes).

Scalars are exact rationals `ℚ`; vectors are `Fin n → ℚ`; matrices are
`Matrix (Fin n) (Fin m) ℚ`, mirroring the numpy arrays of the source.
External library routines (numpy's `cholesky`/`inv`, pinocchio's dynamics
terms, the cost manager) enter as explicit parameters, with their
documented contracts stated as hypotheses where a theorem needs them.
-/

open Matrix

abbrev Vec (n : ℕ) := Fin n → ℚ

abbrev Mat (n m : ℕ) := Matrix (Fin n) (Fin m) ℚ

/-- Model of `np.linalg.inv` (external numpy routine): the exact matrix
inverse, realised computably through the adjugate.  For invertible input it
agrees with Mathlib's `Matrix.inv` (theorem `npInv_eq` below); numpy raises
on singular input, which no embedded call path reaches. -/
def npInv {n : ℕ} (A : Mat n n) : Mat n n := (A.det)⁻¹ • A.adjugate

namespace StateVector

/-- `StateVector.diff` (state.py line 28): `diff(x1, x2) = x2 - x1`. -/
def diff {nx : ℕ} (x1 x2 : Vec nx) : Vec nx := x2 - x1

/-- `StateVector.integrate` (state.py line 35): `integrate(x1, dx) = x1 + dx`. -/
def integrate {nx : ℕ} (x1 dx : Vec nx) : Vec nx := x1 + dx

end StateVector

namespace DifferentialActionModel

/-- The slice `x[:nq]` of a flat state `x = [q; v]`. -/
def qof {nq nv : ℕ} (x : Vec (nq + nv)) : Vec nq := fun i => x (Fin.castAdd nv i)

/-- The slice `x[-nv:]` of a flat state `x = [q; v]`. -/
def vof {nq nv : ℕ} (x : Vec (nq + nv)) : Vec nv := fun i => x (Fin.natAdd nq i)

/-- External pinocchio routines consumed by `DifferentialActionModel`
(differential_action.py lines 34-42 and 58-67), plus the optional
`armature` attribute of the pinocchio model (the `hasattr` test at
line 39 corresponds to the `Option` being `some`). -/
structure PinModel (nq nv : ℕ) where
  mass : Vec nq → Vec nv → Mat nv nv
  nle : Vec nq → Vec nv → Vec nv
  aba : Vec nq → Vec nv → Vec nv → Vec nv
  rneaDq : Vec nq → Vec nv → Vec nv → Mat nv nv
  rneaDv : Vec nq → Vec nv → Vec nv → Mat nv nv
  abaDq : Vec nq → Vec nv → Vec nv → Mat nv nv
  abaDv : Vec nq → Vec nv → Vec nv → Mat nv nv
  minverse : Vec nq → Mat nv nv
  armature : Option (Vec nv)

/-- `DifferentialActionModel` (differential_action.py lines 10-23): the
pinocchio model handle, the ABA switch, and the cost sum, the latter kept
abstract (`costCalc`, `costDiff`) exactly as the source delegates to
`self.costs`.  `nu = nv` and `unone = zeros(nu)` as in the constructor. -/
structure DAM (nq nv : ℕ) (γ : Type) where
  pin : PinModel nq nv
  forceAba : Bool
  costCalc : Vec (nq + nv) → Vec nv → ℚ
  costDiff : Vec (nq + nv) → Vec nv → γ

/-- The mass matrix actually inverted in the non-ABA branch
(differential_action.py lines 38-40): pinocchio's `M` with the armature
diagonal added when the model has an `armature` attribute. -/
def Mreg {nq nv : ℕ} (pin : PinModel nq nv) (q : Vec nq) (v : Vec nv) : Mat nv nv :=
  match pin.armature with
  | some ar => pin.mass q v + Matrix.diagonal ar
  | none => pin.mass q v

/-- `DifferentialActionModel.calc` (differential_action.py lines 27-47).
`u = None` is `Option.none`, replaced by `unone = zeros(nu)`.  Returns
`(data.xout, data.cost)`. -/
def calcFn {nq nv : ℕ} {γ : Type} (model : DAM nq nv γ)
    (x : Vec (nq + nv)) (u : Option (Vec nv)) : Vec nv × ℚ :=
  let uv := u.getD 0
  let q := qof x
  let v := vof x
  let tauq := uv
  let xout :=
    if model.forceAba then model.pin.aba q v tauq
    else npInv (Mreg model.pin q v) *ᵥ (tauq - model.pin.nle q v)
  (xout, model.costCalc x uv)

/-- Output record of `calcDiff` (the fields of `DifferentialActionData`
written by differential_action.py lines 49-73).  `data.Fx` is the
horizontal block `[FxQ | FxV]` (columns `[:nv]` and `[nv:]`). -/
structure DiffOut (nq nv : ℕ) (γ : Type) where
  xout : Vec nv
  cost : ℚ
  FxQ : Mat nv nv
  FxV : Mat nv nv
  Fu : Mat nv nv
  costD : γ

/-- `DifferentialActionModel.calcDiff` (differential_action.py lines 49-73)
with the default `recalc=True` behaviour: `calc` runs first, then the
dynamics derivatives and the cost derivatives are populated. -/
def calcDiff {nq nv : ℕ} {γ : Type} (model : DAM nq nv γ)
    (x : Vec (nq + nv)) (u : Option (Vec nv)) : DiffOut nq nv γ :=
  let uv := u.getD 0
  let q := qof x
  let v := vof x
  let tauq := uv
  let xc := calcFn model x u
  let a := xc.1
  if model.forceAba then
    { xout := xc.1, cost := xc.2
      FxQ := model.pin.abaDq q v tauq
      FxV := model.pin.abaDv q v tauq
      Fu := model.pin.minverse q
      costD := model.costDiff x uv }
  else
    let Minv := npInv (Mreg model.pin q v)
    { xout := xc.1, cost := xc.2
      FxQ := -(Minv * model.pin.rneaDq q v a)
      FxV := -(Minv * model.pin.rneaDv q v a)
      Fu := Minv
      costD := model.costDiff x uv }

end DifferentialActionModel

namespace ConstrainedDDP

/-- The six outputs of `cost_manager.computeRunningTerms` (consumed at
ddp_formulation.py line 138). -/
structure CostTerms (n m : ℕ) where
  l : ℚ
  lx : Vec n
  lu : Vec m
  lxx : Mat n n
  luu : Mat m m
  lux : Mat m n

/-- Scaling of the running-cost terms by the interval length
(ddp_formulation.py lines 142-147: `l *= dt`, ..., `lux *= dt`). -/
def discretize {n m : ℕ} (dtv : ℚ) (c : CostTerms n m) : CostTerms n m :=
  { l := c.l * dtv, lx := dtv • c.lx, lu := dtv • c.lu,
    lxx := dtv • c.lxx, luu := dtv • c.luu, lux := dtv • c.lux }

/-- Explicit-Euler discretization of the dynamics Jacobians
(ddp_formulation.py lines 154-155: `fx ← fx * dt + I`, `fu ← fu * dt`). -/
def discretizeDyn {n m : ℕ} (dtv : ℚ) (fx : Mat n n) (fu : Mat n m) :
    Mat n n × Mat n m :=
  (dtv • fx + 1, dtv • fu)

/-- Per-knot quantities written by one iteration of the backward sweep
(ddp_formulation.py lines 163-191): the Q-terms, their regularized twins,
the gains `K` and `j`, the value-function derivatives, the discretized
running cost `l` and the increment `dV` added to `self.dV_exp`. -/
structure KnotOut (n m : ℕ) where
  Qx : Vec n
  Qu : Vec m
  Qxx : Mat n n
  Quu : Mat m m
  Qux : Mat m n
  Quu_r : Mat m m
  Qux_r : Mat m n
  K : Mat m n
  j : Vec m
  Vx : Vec n
  Vxx : Mat n n
  l : ℚ
  dV : ℚ

/-- One knot of the backward sweep after discretization
(ddp_formulation.py lines 157-191).  `chol` models `np.linalg.cholesky`,
which raises on non-positive-definite input (`none`); `npInv` models
`np.linalg.inv`.  Returns `none` exactly when the Cholesky call raises,
mirroring the absence of any exception handler in the source. -/
def bstepCore {n m : ℕ} (mu alpha : ℚ) (chol : Mat m m → Option (Mat m m))
    (Vxp : Vec n) (Vxxp : Mat n n) (c : CostTerms n m) (fx : Mat n n) (fu : Mat n m) :
    Option (KnotOut n m) :=
  let Qx := c.lx + fxᵀ *ᵥ Vxp
  let Qu := c.lu + fuᵀ *ᵥ Vxp
  let Qxx := c.lxx + fxᵀ * Vxxp * fx
  let Quu := c.luu + fuᵀ * Vxxp * fu
  let Qux := c.lux + fuᵀ * Vxxp * fx
  let muI := mu • (1 : Mat n n)
  let Quu_r := Quu + fuᵀ * muI * fu
  let Qux_r := Qux + fuᵀ * muI * fx
  match chol Quu_r with
  | none => none
  | some L =>
    let L_inv := npInv L
    let Quu_inv := L_invᵀ * L_inv
    let K := -(Quu_inv * Qux_r)
    let j := -(Quu_inv *ᵥ Qu)
    let jtQuuj := (1/2 : ℚ) * (j ⬝ᵥ (Quu *ᵥ j))
    let jtQu := j ⬝ᵥ Qu
    some { Qx := Qx, Qu := Qu, Qxx := Qxx, Quu := Quu, Qux := Qux,
           Quu_r := Quu_r, Qux_r := Qux_r, K := K, j := j,
           Vx := Qx + (Kᵀ * Quu) *ᵥ j + Kᵀ *ᵥ Qu + Quxᵀ *ᵥ j,
           Vxx := Qxx + Kᵀ * Quu * K + Kᵀ * Qux + Quxᵀ * K,
           l := c.l, dV := alpha * (alpha * jtQuuj + jtQu) }

/-- Inputs read by `ConstrainedDDP.backwardPass` (ddp_formulation.py
lines 107-191): horizon `N`, the per-knot nominal trajectory `xs`/`us` and
interval lengths `dt`, the cost manager (`runTerms` for
`computeRunningTerms`, `termTerms` for `computeTerminalTerms` at the
terminal state `xf`), the dynamics Jacobians `dyn` (the `fx, fu` of
`computeAllTerms`), numpy's Cholesky `chol`, the regularization `mu` and
the line-search parameter `alpha`. -/
structure BPIn (n m : ℕ) where
  N : ℕ
  xs : ℕ → Vec n
  us : ℕ → Vec m
  dt : ℕ → ℚ
  runTerms : ℕ → Vec n → Vec m → CostTerms n m
  dyn : ℕ → Vec n → Vec m → Mat n n × Mat n m
  termTerms : Vec n → ℚ × Vec n × Mat n n
  xf : Vec n
  chol : Mat m m → Option (Mat m m)
  mu : ℚ
  alpha : ℚ

/-- State carried along the backward sweep: the current value-function
derivatives (of the knot just processed), the accumulators `self.V` and
`self.dV_exp`, and the per-knot records produced so far (head = lowest
knot index). -/
structure SweepSt (n m : ℕ) where
  Vx : Vec n
  Vxx : Mat n n
  V : ℚ
  dV : ℚ
  outs : List (ℕ × KnotOut n m)

/-- The backward sweep step at knot `k` (ddp_formulation.py lines 126-191):
cost terms and dynamics Jacobians are computed at the knot's nominal
`(x, u)`, scaled/discretized, then fed to the Riccati step. -/
def bstepFull {n m : ℕ} (inp : BPIn n m) (k : ℕ) (Vxp : Vec n) (Vxxp : Mat n n) :
    Option (KnotOut n m) :=
  let c := discretize (inp.dt k) (inp.runTerms k (inp.xs k) (inp.us k))
  let fd := discretizeDyn (inp.dt k) (inp.dyn k (inp.xs k) (inp.us k)).1
    (inp.dyn k (inp.xs k) (inp.us k)).2
  bstepCore inp.mu inp.alpha inp.chol Vxp Vxxp c fd.1 fd.2

/-- `c` steps of the backward sweep: `bsweep inp 0` is the state after the
terminal initialisation (ddp_formulation.py lines 114-120), and step `c+1`
processes knot `N-1-c`, so the loop `for k in range(N-1, -1, -1)` is
`bsweep inp N`.  An unhandled `LinAlgError` from `np.linalg.cholesky`
aborts the remaining iterations, carrying the failing knot index. -/
def bsweep {n m : ℕ} (inp : BPIn n m) : ℕ → Except ℕ (SweepSt n m)
  | 0 =>
    let t := inp.termTerms inp.xf
    .ok { Vx := t.2.1, Vxx := t.2.2, V := t.1, dV := 0, outs := [] }
  | c + 1 =>
    match bsweep inp c with
    | .error e => .error e
    | .ok s =>
      let k := inp.N - 1 - c
      match bstepFull inp k s.Vx s.Vxx with
      | none => .error k
      | some o =>
        .ok { Vx := o.Vx, Vxx := o.Vxx, V := s.V + o.l, dV := s.dV + o.dV,
              outs := (k, o) :: s.outs }

/-- `ConstrainedDDP.backwardPass` (ddp_formulation.py lines 107-191). -/
def backwardPass {n m : ℕ} (inp : BPIn n m) : Except ℕ (SweepSt n m) :=
  bsweep inp inp.N

/-- The sum `d1 = Σ_k kᵀ Qu` over the processed knots. -/
def d1of {n m : ℕ} (s : SweepSt n m) : ℚ :=
  (s.outs.map fun p => p.2.j ⬝ᵥ p.2.Qu).sum

/-- The sum `d2 = Σ_k kᵀ Quu k` over the processed knots. -/
def d2of {n m : ℕ} (s : SweepSt n m) : ℚ :=
  (s.outs.map fun p => p.2.j ⬝ᵥ (p.2.Quu *ᵥ p.2.j)).sum

/-- The regularized Hessian `Quu_r` handed to `np.linalg.cholesky` at knot
`k` when the incoming value-function Hessian is `Vxxp` (the expression
factorized at ddp_formulation.py line 177). -/
def knotQuuR {n m : ℕ} (inp : BPIn n m) (k : ℕ) (Vxxp : Mat n n) : Mat m m :=
  let c := discretize (inp.dt k) (inp.runTerms k (inp.xs k) (inp.us k))
  let fu := (discretizeDyn (inp.dt k) (inp.dyn k (inp.xs k) (inp.us k)).1
    (inp.dyn k (inp.xs k) (inp.us k)).2).2
  let Quu := c.luu + fuᵀ * Vxxp * fu
  Quu + fuᵀ * (inp.mu • (1 : Mat n n)) * fu

/-- Inputs read by `ConstrainedDDP.forwardPass` (ddp_formulation.py
lines 193-237): horizon, nominal trajectory, gains `js`/`Ks` from the
backward pass, interval lengths, the integrator and cost manager, the
accumulators `self.V` and `self.dV_exp` from the backward pass, the step
length `alpha`, and the acceptance bounds `change_lb`/`change_ub`
(`0.` and `100.` in `__init__`). -/
structure FPIn (n m : ℕ) where
  N : ℕ
  xs : ℕ → Vec n
  us : ℕ → Vec m
  js : ℕ → Vec m
  Ks : ℕ → Mat m n
  dt : ℕ → ℚ
  integ : ℕ → Vec n → Vec m → ℚ → Vec n
  runCost : ℕ → Vec n → Vec m → ℚ
  termCost : Vec n → ℚ
  V : ℚ
  dV : ℚ
  alpha : ℚ
  lb : ℚ
  ub : ℚ

/-- The trial states `x_new` of the forward pass: `x_new[0] = x[0]`
(ddp_formulation.py line 200) and
`x_new[k+1] = integrator.integrate(x_new[k], u_new[k], dt)` (line 214),
with `u_new[k] = u[k] + α·j[k] + K[k]·(x_new[k] - x[k])` (line 210). -/
def fpXnew {n m : ℕ} (inp : FPIn n m) : ℕ → Vec n
  | 0 => inp.xs 0
  | k + 1 =>
    let xk := fpXnew inp k
    inp.integ k xk (inp.us k + inp.alpha • inp.js k + inp.Ks k *ᵥ (xk - inp.xs k)) (inp.dt k)

/-- The trial controls `u_new` of the forward pass
(ddp_formulation.py line 210). -/
def fpUnew {n m : ℕ} (inp : FPIn n m) (k : ℕ) : Vec m :=
  inp.us k + inp.alpha • inp.js k + inp.Ks k *ᵥ (fpXnew inp k - inp.xs k)

/-- The candidate cost `self.V_new` accumulated by the forward pass
(ddp_formulation.py lines 201-224): running costs scaled by `dt`, plus the
terminal cost evaluated at `intervals[N-1].x_new` (line 223). -/
def fpVnew {n m : ℕ} (inp : FPIn n m) : ℚ :=
  (∑ k ∈ Finset.range inp.N, inp.runCost k (fpXnew inp k) (fpUnew inp k) * inp.dt k)
    + inp.termCost (fpXnew inp (inp.N - 1))

/-- The acceptance statistic `z = (V_new - V) / dV_exp`
(ddp_formulation.py line 227). -/
def fpZ {n m : ℕ} (inp : FPIn n m) : ℚ := (fpVnew inp - inp.V) / inp.dV

/-- The acceptance test `z > change_lb and z < change_ub`
(ddp_formulation.py line 232). -/
def fpAccept {n m : ℕ} (inp : FPIn n m) : Prop :=
  inp.lb < fpZ inp ∧ fpZ inp < inp.ub

instance {n m : ℕ} (inp : FPIn n m) : Decidable (fpAccept inp) := by
  unfold fpAccept
  infer_instance

/-- The nominal states after the forward pass: the commit loop
`for k in range(self.N-1)` (ddp_formulation.py lines 232-237) copies
`x_new` over `x` for knots `0 .. N-2` when the step is accepted. -/
def fpXsOut {n m : ℕ} (inp : FPIn n m) (k : ℕ) : Vec n :=
  if fpAccept inp ∧ k < inp.N - 1 then fpXnew inp k else inp.xs k

/-- The nominal controls after the forward pass (same commit loop). -/
def fpUsOut {n m : ℕ} (inp : FPIn n m) (k : ℕ) : Vec m :=
  if fpAccept inp ∧ k < inp.N - 1 then fpUnew inp k else inp.us k

/-- The terminal interval's `x` after the forward pass: rebound to
`intervals[N-1].x_new` unconditionally (ddp_formulation.py line 223). -/
def fpTermX {n m : ℕ} (inp : FPIn n m) : Vec n := fpXnew inp (inp.N - 1)

/-- Modelled from the claim (C4): the candidate cost with the terminal
cost evaluated at the propagated terminal state `x_new[N]`, i.e. the state
obtained by integrating knot `N-1`'s dynamics under `u_new[N-1]`. -/
def specVNewClaim {n m : ℕ} (inp : FPIn n m) : ℚ :=
  (∑ k ∈ Finset.range inp.N, inp.runCost k (fpXnew inp k) (fpUnew inp k) * inp.dt k)
    + inp.termCost (fpXnew inp inp.N)

end ConstrainedDDP

/-- Modelled from the spec (§4.6, C8): `Fx_disc = Jintegrate(x,·,first) +
Jintegrate(x,·,second) · dt · Da`. -/
def specFxDisc {n : ℕ} (J1 J2 : Mat n n) (dtv : ℚ) (Da : Mat n n) : Mat n n :=
  J1 + J2 * (dtv • Da)

/-- Modelled from the spec (§4.6, C8): `Fu_disc = Jintegrate(x,·,second) ·
dt · [0; Fu]`. -/
def specFuDisc {n m : ℕ} (J2 : Mat n n) (dtv : ℚ) (FuB : Mat n m) : Mat n m :=
  J2 * (dtv • FuB)

/-- Modelled from the spec (§9, regularization policy): `μ_max = 1e9`.  The
source has no `mu_max` at all; this is the spec's value, used to show the
claim's guard fails even for it. -/
def muMaxSpec : ℚ := 1000000000

/-- Armature value for the C5 witness model. -/
def arW : Vec 1 := fun _ => 1

/-- Concrete pinocchio stub for the C5 witness: one-dof model with mass
matrix `[[2]]`, no nonlinear effects. -/
def pinW : DifferentialActionModel.PinModel 1 1 where
  mass := fun _ _ => Matrix.of ![![(2:ℚ)]]
  nle := fun _ _ => 0
  aba := fun _ _ _ => fun _ => 7
  rneaDq := fun _ _ _ => 0
  rneaDv := fun _ _ _ => 0
  abaDq := fun _ _ _ => 0
  abaDv := fun _ _ _ => 0
  minverse := fun _ => 0
  armature := some arW

/-- Differential action model for the C5 witness. -/
def damW : DifferentialActionModel.DAM 1 1 Unit where
  pin := pinW
  forceAba := false
  costCalc := fun _ _ => 0
  costDiff := fun _ _ => ()

/-- State for the C5 witness. -/
def xW : Vec (1 + 1) := fun _ => 0

/-- Control for the C5 witness. -/
def uW : Option (Vec 1) := some (fun _ => 3)

/-- Concrete stand-in for `np.linalg.cholesky` on 1×1 matrices used by the
witness problems: it returns the factor `[[1]]` of the positive-definite
input `[[1]]` (indeed `1 · 1ᵀ = 1`) and fails on every other input —
in particular on the non-positive-definite matrices fed to it below, where
numpy raises `LinAlgError`. -/
def cholId : Mat 1 1 → Option (Mat 1 1) := fun A => if A = 1 then some 1 else none

/-- Running-cost terms for the backward-pass witness problems:
`l = 5`, `luu = I`, all other terms zero. -/
def cW : ConstrainedDDP.CostTerms 1 1 :=
  { l := 5, lx := 0, lu := 0, lxx := 0, luu := 1, lux := 0 }

/-- The knot record produced by the backward step on the witness data. -/
def oW : ConstrainedDDP.KnotOut 1 1 :=
  { Qx := 0, Qu := 0, Qxx := 0, Quu := 1, Qux := 0, Quu_r := 1, Qux_r := 0,
    K := 0, j := 0, Vx := 0, Vxx := 0, l := 5, dV := 0 }

/-- One-knot backward-pass witness problem: `dt = 1`, zero dynamics
Jacobians, terminal value `3`, running terms `cW`. -/
def inp7 : ConstrainedDDP.BPIn 1 1 :=
  { N := 1, xs := fun _ => 0, us := fun _ => 0, dt := fun _ => 1,
    runTerms := fun _ _ _ => cW, dyn := fun _ _ _ => (0, 0),
    termTerms := fun _ => (3, 0, 0), xf := 0, chol := cholId, mu := 1, alpha := 1 }

/-- The sweep state after the backward pass on `inp7`. -/
def s7 : ConstrainedDDP.SweepSt 1 1 :=
  { Vx := 0, Vxx := 0, V := 8, dV := 0, outs := [(0, oW)] }

/-- Running-cost terms with `luu = [[-1]]`, making `Quu_r = [[-1]]`
non-positive-definite at the witness knot. -/
def cNeg : ConstrainedDDP.CostTerms 1 1 :=
  { l := 0, lx := 0, lu := 0, lxx := 0, luu := -1, lux := 0 }

/-- One-knot backward-pass problem whose only knot has a
non-positive-definite `Quu_r = [[-1]]`; `mu` is the source's
`__init__` value `1e-8`. -/
def inp3 : ConstrainedDDP.BPIn 1 1 :=
  { N := 1, xs := fun _ => 0, us := fun _ => 0, dt := fun _ => 1,
    runTerms := fun _ _ _ => cNeg, dyn := fun _ _ _ => (0, 0),
    termTerms := fun _ => (3, 0, 0), xf := 0, chol := cholId,
    mu := 1 / 100000000, alpha := 1 }

/-- Variant of `inp3` with a different regularization value. -/
def inp3w : ConstrainedDDP.BPIn 1 1 := { inp3 with mu := 5 }

/-- Forward-pass problem with `N = 1`, identity dynamics, unit running
cost, feedforward `j = [5]` and `V = 2`, `dV_exp = -1`, so that
`z = (1-2)/(-1) = 1` lies strictly inside `(change_lb, change_ub)`. -/
def fp1 : ConstrainedDDP.FPIn 1 1 :=
  { N := 1, xs := fun _ => 0, us := fun _ => 0, js := fun _ => fun _ => 5,
    Ks := fun _ => 0, dt := fun _ => 1, integ := fun _ x _ _ => x,
    runCost := fun _ _ _ => 1, termCost := fun _ => 0,
    V := 2, dV := -1, alpha := 1, lb := 0, ub := 100 }

/-- Variant of `fp1` with `V = 1`, so that `z = 0 = change_lb` exactly. -/
def fp2 : ConstrainedDDP.FPIn 1 1 := { fp1 with V := 1 }

/-- Forward-pass problem whose dynamics shift the state by one, so the
propagated terminal state `x_new[N]` differs from `x_new[N-1]`: running
cost zero, terminal cost `x ↦ x 0`. -/
def fp4 : ConstrainedDDP.FPIn 1 1 :=
  { N := 1, xs := fun _ => 0, us := fun _ => 0, js := fun _ => 0,
    Ks := fun _ => 0, dt := fun _ => 1, integ := fun _ x _ _ => fun i => x i + 1,
    runCost := fun _ _ _ => 0, termCost := fun x => x 0,
    V := 1, dV := -1, alpha := 1, lb := 0, ub := 100 }

theorem npInv_eq {n : ℕ} (A : Mat n n) : npInv A = A⁻¹ := by
  rw [npInv, Matrix.inv_def, Ring.inverse_eq_inv]

/-- C9: for the flat vector state (`StateVector`), for every state `x` and
tangent `dx`, `diff (x, integrate (x, dx)) = dx` exactly and
`integrate (x, 0) = x`; and for every pair of states `x0, x1`,
`integrate (x0, diff (x0, x1)) = x1` exactly. -/
theorem C9_state_vector_manifold_laws {nx : ℕ} :
    (∀ x dx : Vec nx, StateVector.diff x (StateVector.integrate x dx) = dx)
    ∧ (∀ x : Vec nx, StateVector.integrate x 0 = x)
    ∧ (∀ x0 x1 : Vec nx, StateVector.integrate x0 (StateVector.diff x0 x1) = x1) := by
  refine ⟨fun x dx => ?_, fun x => ?_, fun x0 x1 => ?_⟩ <;>
    simp [StateVector.diff, StateVector.integrate]

/-- C5: `DifferentialActionModel.calc` computes the joint acceleration as
`xout = (M + diag armature)⁻¹ (u - nle)` when `forceAba` is false (armature
added to the mass matrix before inversion), and as `xout = ABA (q, v, u)`
when `forceAba` is true, in which case the armature term is not applied to
the dynamics (the acceleration is the same whatever the armature field
holds). -/
theorem C5_dam_calc_dynamics {nq nv : ℕ} {γ : Type}
    (model : DifferentialActionModel.DAM nq nv γ)
    (x : Vec (nq + nv)) (u : Option (Vec nv)) (ar : Vec nv)
    (har : model.pin.armature = some ar)
    (hdet : IsUnit (model.pin.mass (DifferentialActionModel.qof x)
      (DifferentialActionModel.vof x) + Matrix.diagonal ar).det) :
    (model.forceAba = false →
      (DifferentialActionModel.calcFn model x u).1 =
        (model.pin.mass (DifferentialActionModel.qof x) (DifferentialActionModel.vof x)
            + Matrix.diagonal ar)⁻¹
          *ᵥ (u.getD 0 - model.pin.nle (DifferentialActionModel.qof x)
              (DifferentialActionModel.vof x)))
    ∧ (model.forceAba = true →
      (DifferentialActionModel.calcFn model x u).1 =
        model.pin.aba (DifferentialActionModel.qof x) (DifferentialActionModel.vof x)
          (u.getD 0)
      ∧ ∀ ar' : Option (Vec nv),
        (DifferentialActionModel.calcFn
            { model with pin := { model.pin with armature := ar' } } x u).1 =
          (DifferentialActionModel.calcFn model x u).1) := by
  constructor
  · intro hf
    rw [DifferentialActionModel.calcFn]
    simp only [hf, Bool.false_eq_true, if_false]
    rw [DifferentialActionModel.Mreg, har, npInv_eq]
  · intro hf
    constructor
    · rw [DifferentialActionModel.calcFn]
      simp [hf]
    · intro ar'
      rw [DifferentialActionModel.calcFn, DifferentialActionModel.calcFn]
      simp [hf]

/-- Witness for C5 at a concrete one-dof model (mass `[[2]]`, armature
`[1]`, `nle = 0`, `u = [3]`), discharging the armature and invertibility
hypotheses. -/
theorem C5_dam_calc_dynamics_witness :
    (damW.forceAba = false →
      (DifferentialActionModel.calcFn damW xW uW).1 =
        (damW.pin.mass (DifferentialActionModel.qof xW) (DifferentialActionModel.vof xW)
            + Matrix.diagonal arW)⁻¹
          *ᵥ (uW.getD 0 - damW.pin.nle (DifferentialActionModel.qof xW)
              (DifferentialActionModel.vof xW)))
    ∧ (damW.forceAba = true →
      (DifferentialActionModel.calcFn damW xW uW).1 =
        damW.pin.aba (DifferentialActionModel.qof xW) (DifferentialActionModel.vof xW)
          (uW.getD 0)
      ∧ ∀ ar' : Option (Vec 1),
        (DifferentialActionModel.calcFn
            { damW with pin := { damW.pin with armature := ar' } } xW uW).1 =
          (DifferentialActionModel.calcFn damW xW uW).1) :=
  C5_dam_calc_dynamics damW xW uW arW rfl (by
    refine isUnit_iff_ne_zero.mpr ?_
    rw [Matrix.det_fin_one]
    simp [damW, pinW, arW, Matrix.diagonal]
    norm_num)

/-- C10: for every state `x`, calling `DifferentialActionModel.calc` or
`calcDiff` with the control argument omitted (`u = None`) produces exactly
the same outputs (acceleration, cost, and for `calcDiff` all derivative
blocks) as calling it with the zero control vector of length `nu`. -/
theorem C10_dam_none_is_zero_control {nq nv : ℕ} {γ : Type}
    (model : DifferentialActionModel.DAM nq nv γ) (x : Vec (nq + nv)) :
    DifferentialActionModel.calcFn model x none
      = DifferentialActionModel.calcFn model x (some 0)
    ∧ DifferentialActionModel.calcDiff model x none
      = DifferentialActionModel.calcDiff model x (some 0) :=
  ⟨rfl, rfl⟩

theorem cholInv_transpose_mul {m : ℕ} (L : Mat m m) :
    (npInv L)ᵀ * npInv L = (L * Lᵀ)⁻¹ := by
  rw [npInv_eq, Matrix.transpose_nonsing_inv, ← Matrix.mul_inv_rev]

theorem mu_reg_form {n m p : ℕ} (fu : Mat n m) (X : Mat n p) (mu : ℚ) :
    fuᵀ * (mu • (1 : Mat n n)) * X = mu • (fuᵀ * X) := by
  rw [Matrix.mul_smul, Matrix.mul_one, Matrix.smul_mul]

theorem vxx_symmetric {n m : ℕ} (Qxx : Mat n n) (Quu : Mat m m) (Qux : Mat m n)
    (K : Mat m n) (h1 : Qxxᵀ = Qxx) (h2 : Quuᵀ = Quu) :
    (Qxx + Kᵀ * Quu * K + Kᵀ * Qux + Quxᵀ * K)ᵀ
      = Qxx + Kᵀ * Quu * K + Kᵀ * Qux + Quxᵀ * K := by
  simp only [Matrix.transpose_add, Matrix.transpose_mul, Matrix.transpose_transpose,
    h1, h2, Matrix.mul_assoc]
  abel

/-- C1: in the DDP backward pass, each running knot's update (given the
next knot's value-function derivatives `Vxp`, `Vxxp`) computes
`Quu_r = Quu + μ·Fuᵀ Fu`, `Qux_r = Qux + μ·Fuᵀ Fx`, feedforward
`j = -Quu_r⁻¹ Qu`, feedback `K = -Quu_r⁻¹ Qux_r`, and propagates
`Vx = Qx + Kᵀ Quu j + Kᵀ Qu + Quxᵀ j` and
`Vxx = Qxx + Kᵀ Quu K + Kᵀ Qux + Quxᵀ K`, the latter symmetric.  The
hypotheses state numpy's Cholesky contract (`L Lᵀ = Quu_r`) and symmetry
of the cost Hessians and of the propagated `Vxxp`. -/
theorem C1_backward_knot_update {n m : ℕ} (mu alpha : ℚ)
    (chol : Mat m m → Option (Mat m m)) (Vxp : Vec n) (Vxxp : Mat n n)
    (c : ConstrainedDDP.CostTerms n m) (fx : Mat n n) (fu : Mat n m)
    (o : ConstrainedDDP.KnotOut n m) (L : Mat m m)
    (h : ConstrainedDDP.bstepCore mu alpha chol Vxp Vxxp c fx fu = some o)
    (hc : chol o.Quu_r = some L)
    (hLL : L * Lᵀ = o.Quu_r)
    (hVs : Vxxpᵀ = Vxxp) (hlxx : c.lxxᵀ = c.lxx) (hluu : c.luuᵀ = c.luu) :
    o.Quu_r = o.Quu + mu • (fuᵀ * fu)
    ∧ o.Qux_r = o.Qux + mu • (fuᵀ * fx)
    ∧ o.j = -(o.Quu_r⁻¹ *ᵥ o.Qu)
    ∧ o.K = -(o.Quu_r⁻¹ * o.Qux_r)
    ∧ o.Vx = o.Qx + (o.Kᵀ * o.Quu) *ᵥ o.j + o.Kᵀ *ᵥ o.Qu + o.Quxᵀ *ᵥ o.j
    ∧ o.Vxx = o.Qxx + o.Kᵀ * o.Quu * o.K + o.Kᵀ * o.Qux + o.Quxᵀ * o.K
    ∧ o.Vxxᵀ = o.Vxx := by
  simp only [ConstrainedDDP.bstepCore] at h
  split at h
  · exact Option.noConfusion h
  · next L' hch =>
    injection h with h
    subst h
    simp only at hc hch
    rw [hch] at hc
    injection hc with hc
    subst hc
    refine ⟨by simp only [mu_reg_form], by simp only [mu_reg_form], ?_, ?_, rfl, rfl, ?_⟩
    · simp only [cholInv_transpose_mul, hLL]
    · simp only [cholInv_transpose_mul, hLL]
    · exact vxx_symmetric _ _ _ _
        (by simp only [Matrix.transpose_add, Matrix.transpose_mul,
          Matrix.transpose_transpose, hVs, hlxx, Matrix.mul_assoc])
        (by simp only [Matrix.transpose_add, Matrix.transpose_mul,
          Matrix.transpose_transpose, hVs, hluu, Matrix.mul_assoc])

/-- C8: in the backward pass, the continuous-time cost value and
derivatives are each multiplied by the interval length `dt`, and the
continuous dynamics Jacobians are discretized by explicit Euler over the
flat state as `fx ← I + dt·fx`, `fu ← dt·fu` — the specialization of the
spec's `Fx_disc`/`Fu_disc` formulas when `Jintegrate` is the identity. -/
theorem C8_euler_discretization {n m : ℕ} (dtv : ℚ) (c : ConstrainedDDP.CostTerms n m)
    (fx : Mat n n) (fu : Mat n m) :
    (ConstrainedDDP.discretize dtv c).l = dtv * c.l
    ∧ (ConstrainedDDP.discretize dtv c).lx = dtv • c.lx
    ∧ (ConstrainedDDP.discretize dtv c).lu = dtv • c.lu
    ∧ (ConstrainedDDP.discretize dtv c).lxx = dtv • c.lxx
    ∧ (ConstrainedDDP.discretize dtv c).luu = dtv • c.luu
    ∧ (ConstrainedDDP.discretize dtv c).lux = dtv • c.lux
    ∧ (ConstrainedDDP.discretizeDyn dtv fx fu).1 = 1 + dtv • fx
    ∧ (ConstrainedDDP.discretizeDyn dtv fx fu).1 = specFxDisc 1 1 dtv fx
    ∧ (ConstrainedDDP.discretizeDyn dtv fx fu).2 = dtv • fu
    ∧ (ConstrainedDDP.discretizeDyn dtv fx fu).2 = specFuDisc 1 dtv fu := by
  refine ⟨mul_comm c.l dtv, rfl, rfl, rfl, rfl, rfl, ?_, ?_, rfl, ?_⟩
  · rw [ConstrainedDDP.discretizeDyn, add_comm]
  · rw [ConstrainedDDP.discretizeDyn, specFxDisc, Matrix.one_mul, add_comm]
  · rw [ConstrainedDDP.discretizeDyn, specFuDisc, Matrix.one_mul]

theorem bstepCore_dV_form {n m : ℕ} (mu alpha : ℚ)
    (chol : Mat m m → Option (Mat m m)) (Vxp : Vec n) (Vxxp : Mat n n)
    (c : ConstrainedDDP.CostTerms n m) (fx : Mat n n) (fu : Mat n m)
    (o : ConstrainedDDP.KnotOut n m)
    (h : ConstrainedDDP.bstepCore mu alpha chol Vxp Vxxp c fx fu = some o) :
    o.dV = alpha * (alpha * ((1/2 : ℚ) * (o.j ⬝ᵥ (o.Quu *ᵥ o.j))) + o.j ⬝ᵥ o.Qu) := by
  simp only [ConstrainedDDP.bstepCore] at h
  split at h
  · exact Option.noConfusion h
  · injection h with h
    subst h
    rfl

theorem bsweep_dV_closed {n m : ℕ} (inp : ConstrainedDDP.BPIn n m) :
    ∀ cnt s, ConstrainedDDP.bsweep inp cnt = .ok s →
      s.dV = inp.alpha * ConstrainedDDP.d1of s
        + (1/2 : ℚ) * inp.alpha ^ 2 * ConstrainedDDP.d2of s := by
  intro cnt
  induction cnt with
  | zero =>
    intro s h
    simp only [ConstrainedDDP.bsweep] at h
    injection h with h
    subst h
    simp [ConstrainedDDP.d1of, ConstrainedDDP.d2of]
  | succ cnt ih =>
    intro s h
    simp only [ConstrainedDDP.bsweep] at h
    split at h
    · exact Except.noConfusion h
    · next s' heq =>
      split at h
      · exact Except.noConfusion h
      · next o heq2 =>
        injection h with h
        subst h
        have hdv : o.dV = inp.alpha
            * (inp.alpha * ((1/2 : ℚ) * (o.j ⬝ᵥ (o.Quu *ᵥ o.j))) + o.j ⬝ᵥ o.Qu) := by
          simp only [ConstrainedDDP.bstepFull] at heq2
          exact bstepCore_dV_form _ _ _ _ _ _ _ _ _ heq2
        have ihs := ih s' heq
        simp only [ConstrainedDDP.d1of, ConstrainedDDP.d2of, List.map_cons,
          List.sum_cons] at ihs ⊢
        rw [ihs, hdv]
        ring

/-- C7: after a backward pass run with step-length parameter `alpha`, the
accumulated expected improvement `dV_exp` equals
`α·d1 + ½·α²·d2` with `d1 = Σ_k jᵀ Qu` and `d2 = Σ_k jᵀ Quu j` over the
running knots. -/
theorem C7_expected_improvement {n m : ℕ} (inp : ConstrainedDDP.BPIn n m)
    (s : ConstrainedDDP.SweepSt n m)
    (h : ConstrainedDDP.backwardPass inp = .ok s) :
    s.dV = inp.alpha * ConstrainedDDP.d1of s
      + (1/2 : ℚ) * inp.alpha ^ 2 * ConstrainedDDP.d2of s :=
  bsweep_dV_closed inp inp.N s h

theorem bstepFull_fail {n m : ℕ} (inp : ConstrainedDDP.BPIn n m) (k : ℕ)
    (Vxp : Vec n) (Vxxp : Mat n n)
    (h : inp.chol (ConstrainedDDP.knotQuuR inp k Vxxp) = none) :
    ConstrainedDDP.bstepFull inp k Vxp Vxxp = none := by
  simp only [ConstrainedDDP.knotQuuR] at h
  simp only [ConstrainedDDP.bstepFull, ConstrainedDDP.bstepCore]
  rw [h]

theorem bsweep_err_succ {n m : ℕ} (inp : ConstrainedDDP.BPIn n m) (cnt e : ℕ)
    (h : ConstrainedDDP.bsweep inp cnt = .error e) :
    ConstrainedDDP.bsweep inp (cnt + 1) = .error e := by
  simp [ConstrainedDDP.bsweep, h]

/-- C3 (amended): the backward pass performs no Cholesky-failure recovery:
when `np.linalg.cholesky` raises at the first processed knot `N-1` (its
`Quu_r` is not positive-definite), the backward pass aborts immediately
with that error, whatever the value of `mu`; the source never increases
`mu` and has no `mu_max`. -/
theorem C3_amended_cholesky_abort {n m : ℕ} (inp : ConstrainedDDP.BPIn n m)
    (hN : 0 < inp.N)
    (hfail : inp.chol (ConstrainedDDP.knotQuuR inp (inp.N - 1)
      (inp.termTerms inp.xf).2.2) = none) :
    ConstrainedDDP.backwardPass inp = .error (inp.N - 1) := by
  have h1 : ConstrainedDDP.bsweep inp 1 = .error (inp.N - 1) := by
    have hb := bstepFull_fail inp (inp.N - 1)
      (inp.termTerms inp.xf).2.1 (inp.termTerms inp.xf).2.2 hfail
    simp only [ConstrainedDDP.bsweep]
    simp [hb]
  have hall : ∀ d, ConstrainedDDP.bsweep inp (1 + d) = .error (inp.N - 1) := by
    intro d
    induction d with
    | zero => exact h1
    | succ d ihd =>
      have := bsweep_err_succ inp (1 + d) (inp.N - 1) ihd
      rw [show 1 + (d + 1) = 1 + d + 1 by omega]
      exact this
  have hNN : inp.N = 1 + (inp.N - 1) := by omega
  have hfin := hall (inp.N - 1)
  rw [← hNN] at hfin
  exact hfin

theorem cholId_one : cholId 1 = some 1 := by
  simp [cholId]

theorem cholId_neg_one : cholId (-1) = none := by
  rw [cholId]
  rw [if_neg]
  intro h
  have h0 := congrFun (congrFun h 0) 0
  simp [Matrix.neg_apply, Matrix.one_apply] at h0
  norm_num at h0

theorem bstepCore_witness_eval :
    ConstrainedDDP.bstepCore 1 1 cholId 0 0 cW 1 0 = some oW := by
  simp [ConstrainedDDP.bstepCore, cW, oW, cholId_one, npInv, Matrix.det_one,
    Matrix.adjugate_one]

/-- Witness for C1 at the concrete one-knot data (`Quu_r = [[1]]`, whose
Cholesky factor is `[[1]]`), discharging the Cholesky-contract and symmetry
hypotheses. -/
theorem C1_backward_knot_update_witness :
    oW.Quu_r = oW.Quu + (1:ℚ) • ((0 : Mat 1 1)ᵀ * (0 : Mat 1 1))
    ∧ oW.Qux_r = oW.Qux + (1:ℚ) • ((0 : Mat 1 1)ᵀ * (1 : Mat 1 1))
    ∧ oW.j = -(oW.Quu_r⁻¹ *ᵥ oW.Qu)
    ∧ oW.K = -(oW.Quu_r⁻¹ * oW.Qux_r)
    ∧ oW.Vx = oW.Qx + (oW.Kᵀ * oW.Quu) *ᵥ oW.j + oW.Kᵀ *ᵥ oW.Qu + oW.Quxᵀ *ᵥ oW.j
    ∧ oW.Vxx = oW.Qxx + oW.Kᵀ * oW.Quu * oW.K + oW.Kᵀ * oW.Qux + oW.Quxᵀ * oW.K
    ∧ oW.Vxxᵀ = oW.Vxx :=
  C1_backward_knot_update 1 1 cholId 0 0 cW 1 0 oW 1 bstepCore_witness_eval
    (by simp [oW, cholId_one]) (by simp [oW]) (by simp) (by simp [cW]) (by simp [cW])

theorem discretize_one_cW : ConstrainedDDP.discretize 1 cW = cW := by
  simp [ConstrainedDDP.discretize, cW]

theorem backwardPass_inp7_eval : ConstrainedDDP.backwardPass inp7 = .ok s7 := by
  simp [ConstrainedDDP.backwardPass, ConstrainedDDP.bsweep, ConstrainedDDP.bstepFull,
    ConstrainedDDP.discretizeDyn, inp7, s7, oW, discretize_one_cW,
    bstepCore_witness_eval]
  norm_num

/-- Witness for C7 on the concrete one-knot problem `inp7`, whose backward
pass succeeds with sweep state `s7`. -/
theorem C7_expected_improvement_witness :
    s7.dV = inp7.alpha * ConstrainedDDP.d1of s7
      + (1/2 : ℚ) * inp7.alpha ^ 2 * ConstrainedDDP.d2of s7 :=
  C7_expected_improvement inp7 s7 backwardPass_inp7_eval

/-- C3 (counterexample): on the one-knot problem `inp3` with
`Quu_r = [[-1]]` not positive-definite, the Cholesky failure escapes the
backward pass as an error even though `mu = 1e-8` does not exceed the
spec's `mu_max = 1e9` — refuting the claim that the solver recovers by
raising `mu` and that a failure never escapes while `mu ≤ mu_max`. -/
theorem C3_cholesky_escape_counterexample :
    inp3.mu ≤ muMaxSpec ∧ ConstrainedDDP.backwardPass inp3 = .error 0 := by
  constructor
  · norm_num [inp3, muMaxSpec]
  · simp [ConstrainedDDP.backwardPass, ConstrainedDDP.bsweep, ConstrainedDDP.bstepFull,
      ConstrainedDDP.bstepCore, ConstrainedDDP.discretize, ConstrainedDDP.discretizeDyn,
      inp3, cNeg, cholId_neg_one]

/-- Witness for the amended C3 on the variant problem `inp3w`
(`mu = 5`), discharging the positivity and Cholesky-failure hypotheses. -/
theorem C3_amended_cholesky_abort_witness :
    ConstrainedDDP.backwardPass inp3w = .error 0 := by
  have h := C3_amended_cholesky_abort inp3w (by norm_num [inp3w, inp3])
    (by simp [inp3w, inp3, ConstrainedDDP.knotQuuR, ConstrainedDDP.discretize,
      ConstrainedDDP.discretizeDyn, cNeg, cholId_neg_one])
  simpa [inp3w, inp3] using h

/-- C2 (amended): the forward pass accepts exactly when
`change_lb < z < change_ub` strictly; on acceptance it commits
`x[k] ← x_new[k]`, `u[k] ← u_new[k]` for the running knots
`k ∈ {0, …, N-2}` only (the loop `range(N-1)`), leaving knot `N-1`
unchanged; on rejection every running knot's nominal `x` and `u` is left
unchanged. -/
theorem C2_amended_commit {n m : ℕ} (inp : ConstrainedDDP.FPIn n m) (k : ℕ) :
    (ConstrainedDDP.fpAccept inp →
      ((k < inp.N - 1 →
        ConstrainedDDP.fpXsOut inp k = ConstrainedDDP.fpXnew inp k
          ∧ ConstrainedDDP.fpUsOut inp k = ConstrainedDDP.fpUnew inp k)
      ∧ (inp.N - 1 ≤ k →
        ConstrainedDDP.fpXsOut inp k = inp.xs k
          ∧ ConstrainedDDP.fpUsOut inp k = inp.us k)))
    ∧ (¬ ConstrainedDDP.fpAccept inp →
      ConstrainedDDP.fpXsOut inp k = inp.xs k
        ∧ ConstrainedDDP.fpUsOut inp k = inp.us k)
    ∧ (ConstrainedDDP.fpAccept inp ↔
      inp.lb < ConstrainedDDP.fpZ inp ∧ ConstrainedDDP.fpZ inp < inp.ub) := by
  refine ⟨fun ha => ⟨fun hk => ?_, fun hk => ?_⟩, fun hna => ?_, Iff.rfl⟩
  · rw [ConstrainedDDP.fpXsOut, ConstrainedDDP.fpUsOut, if_pos ⟨ha, hk⟩,
      if_pos ⟨ha, hk⟩]
    exact ⟨rfl, rfl⟩
  · rw [ConstrainedDDP.fpXsOut, ConstrainedDDP.fpUsOut,
      if_neg (fun hcon => absurd hcon.2 (by omega)),
      if_neg (fun hcon => absurd hcon.2 (by omega))]
    exact ⟨rfl, rfl⟩
  · rw [ConstrainedDDP.fpXsOut, ConstrainedDDP.fpUsOut,
      if_neg (fun hcon => hna hcon.1), if_neg (fun hcon => hna hcon.1)]
    exact ⟨rfl, rfl⟩

theorem fpZ_fp1_eval : ConstrainedDDP.fpZ fp1 = 1 := by
  simp [ConstrainedDDP.fpZ, ConstrainedDDP.fpVnew, ConstrainedDDP.fpXnew,
    ConstrainedDDP.fpUnew, fp1]
  norm_num

theorem fpZ_fp2_eval : ConstrainedDDP.fpZ fp2 = 0 := by
  simp [ConstrainedDDP.fpZ, ConstrainedDDP.fpVnew, ConstrainedDDP.fpXnew,
    ConstrainedDDP.fpUnew, fp2, fp1]

theorem fpAccept_fp1 : ConstrainedDDP.fpAccept fp1 := by
  rw [ConstrainedDDP.fpAccept, fpZ_fp1_eval]
  constructor <;> norm_num [fp1]

theorem fpNotAccept_fp2 : ¬ ConstrainedDDP.fpAccept fp2 := by
  rw [ConstrainedDDP.fpAccept, fpZ_fp2_eval]
  intro h
  exact absurd h.1 (by norm_num [fp2, fp1])

/-- C2 (counterexample): on the one-knot problem `fp1` the step is
accepted (`z = 1` strictly inside the bounds) yet knot `0 ∈ {0, …, N-1}`
is not committed (`u[0]` stays `0` although `u_new[0] = 5`); and on `fp2`
the statistic `z = 0` satisfies `change_lb ≤ z ≤ change_ub` yet the code
rejects (strict comparison) and commits nothing. -/
theorem C2_commit_counterexample :
    ConstrainedDDP.fpAccept fp1
    ∧ ConstrainedDDP.fpUsOut fp1 0 ≠ ConstrainedDDP.fpUnew fp1 0
    ∧ (fp2.lb ≤ ConstrainedDDP.fpZ fp2 ∧ ConstrainedDDP.fpZ fp2 ≤ fp2.ub)
    ∧ ¬ ConstrainedDDP.fpAccept fp2
    ∧ ConstrainedDDP.fpUsOut fp2 0 ≠ ConstrainedDDP.fpUnew fp2 0 := by
  refine ⟨fpAccept_fp1, ?_, ⟨?_, ?_⟩, fpNotAccept_fp2, ?_⟩
  · intro h
    have h0 := congrFun h 0
    simp [ConstrainedDDP.fpUsOut, ConstrainedDDP.fpUnew, ConstrainedDDP.fpXnew, fp1] at h0
  · rw [fpZ_fp2_eval]
    norm_num [fp2, fp1]
  · rw [fpZ_fp2_eval]
    norm_num [fp2, fp1]
  · intro h
    have h0 := congrFun h 0
    simp [ConstrainedDDP.fpUsOut, ConstrainedDDP.fpUnew, ConstrainedDDP.fpXnew,
      fp2, fp1] at h0

/-- Witness for the amended C2 at `fp1`, knot `0 = N-1`: the step is
accepted and the last running knot is left unchanged. -/
theorem C2_amended_commit_witness :
    ConstrainedDDP.fpXsOut fp1 0 = fp1.xs 0
      ∧ ConstrainedDDP.fpUsOut fp1 0 = fp1.us 0 :=
  ((C2_amended_commit fp1 0).1 fpAccept_fp1).2 (by norm_num [fp1])

/-- C4: on the one-knot problem `fp4` whose dynamics shift the state by
one, the forward pass computes `V_new = 0` — the terminal cost evaluated
at `x_new[N-1] = x_new[0]` (ddp_formulation.py line 223) — whereas the
claim's formula, with the terminal cost at the propagated terminal state
`x_new[N]`, gives `1`. -/
theorem C4_terminal_cost_bug :
    ConstrainedDDP.fpVnew fp4 = 0 ∧ ConstrainedDDP.specVNewClaim fp4 = 1 := by
  constructor
  · simp [ConstrainedDDP.fpVnew, fp4, ConstrainedDDP.fpXnew]
  · simp [ConstrainedDDP.specVNewClaim, fp4, ConstrainedDDP.fpXnew,
      ConstrainedDDP.fpUnew]
